import Mathlib

/-!
Verification of the range-partition routing layer of a table storage engine
(source: src/table/tables/partition.go).  The file embeds the data model and
the operations of that file: boundary-expression compilation
(generatePartitionExpr), the partition locator (locatePartition, built on the
standard-library binary search sort.Search), the registry construction
(newPartitionedTable) and the partitioned-table facade (UpdateRecord,
GetPartition, GetID).  Expression parsing/evaluation and the physical
single-partition table are collaborators outside the translated file; they are
modelled as explicit fallible function parameters.  Machine int64 values are
modelled as Int: the embedded code performs no arithmetic on them, only
comparisons and table lookups, so no overflow reduction is needed.
-/

namespace PartitionGo

/-- Result type of expression evaluation (expression.Expression.EvalInt in the
source): an int64 value together with an is-null flag, or an evaluation
error.  locatePartition discards the is-null flag. -/
structure Expression (Row : Type) where
  evalInt : Row → Except String (Int × Bool)

instance {Row : Type} : Inhabited (Expression Row) :=
  ⟨⟨fun _ => Except.ok (0, false)⟩⟩

/-- One partition definition of the table metadata (model.PartitionDefinition):
its identifier and its boundary literal list (the code reads LessThan[0]). -/
structure PartitionDef where
  ID : Int
  LessThan : List String
  deriving DecidableEq, Repr

instance : Inhabited PartitionDef := ⟨⟨0, []⟩⟩

/-- Partition metadata of a table (model.PartitionInfo): the partition key
expression text and the ordered partition definitions. -/
structure PartitionInfo where
  Expr : String
  Definitions : List PartitionDef
  deriving DecidableEq, Repr

/-- The slice of model.TableInfo the translated code reads: its partition
info (tblInfo.GetPartitionInfo()). -/
structure TableInfo where
  Partition : PartitionInfo
  deriving DecidableEq, Repr

/-- Errors of locatePartition: a propagated evaluation error, or the
distinguished no-matching-partition error (the source returns the fixed error
value table.ErrTrgInvalidCreationCtx there). -/
inductive LocateError
  | evalError (e : String)
  | noMatchingPartition
  deriving DecidableEq, Repr

/-- Models strings.EqualFold on the ASCII boundary literals that occur here
(case-insensitive equality). -/
def eqFold (s t : String) : Bool :=
  s.toLower == t.toLower

/-- The expression text the compiler writes for UpperBounds of definition d:
the literal text true for a MAXVALUE bound, otherwise
((piExpr) < (first boundary literal)).  Source lines 116-121. -/
def upperBoundString (piExpr : String) (d : PartitionDef) : String :=
  if eqFold (d.LessThan.getD 0 "") "MAXVALUE" then "true"
  else "((" ++ piExpr ++ ") < (" ++ d.LessThan.getD 0 "" ++ "))"

/-- The expression text the compiler writes for Ranges of definition d: the
buffer still holds the upper-bound text, and for every definition after the
first the code appends the lower-bound conjunct
 and ((piExpr) >= (previous boundary literal)).  Source lines 130-132. -/
def rangeString (piExpr : String) (prev : Option PartitionDef) (d : PartitionDef) : String :=
  match prev with
  | none => upperBoundString piExpr d
  | some q =>
      upperBoundString piExpr d ++ " and ((" ++ piExpr ++ ") >= ("
        ++ q.LessThan.getD 0 "" ++ "))"

/-- The two parallel compiled predicate lists (PartitionExpr in the source). -/
structure PartitionExpr (Row : Type) where
  Ranges : List (Expression Row)
  UpperBounds : List (Expression Row)

/-- The loop body of generatePartitionExpr: walks the definitions in order,
parsing first the locate (upper-bound) text and then the prune (range) text of
each definition, aborting at the first parse error.  prev carries the previous
definition, none at the first iteration. -/
def genLoop {Row : Type} (parse : String → Except String (Expression Row))
    (piExpr : String) :
    Option PartitionDef → List PartitionDef →
      Except String (List (Expression Row) × List (Expression Row))
  | _, [] => Except.ok ([], [])
  | prev, d :: rest =>
    match parse (upperBoundString piExpr d) with
    | Except.error e => Except.error e
    | Except.ok ub =>
      match parse (rangeString piExpr prev d) with
      | Except.error e => Except.error e
      | Except.ok rg =>
        match genLoop parse piExpr (some d) rest with
        | Except.error e => Except.error e
        | Except.ok (ubs, rgs) => Except.ok (ub :: ubs, rg :: rgs)

/-- generatePartitionExpr: compiles the boundary texts of every definition of
the table into the locate list (UpperBounds) and the prune list (Ranges),
returning the first compilation error if any.  parse stands for the external
expression.ParseSimpleExprWithTableInfo applied to this table. -/
def generatePartitionExpr {Row : Type} (parse : String → Except String (Expression Row))
    (ti : TableInfo) : Except String (PartitionExpr Row) :=
  match genLoop parse ti.Partition.Expr none ti.Partition.Definitions with
  | Except.error e => Except.error e
  | Except.ok (ubs, rgs) => Except.ok ⟨rgs, ubs⟩

/-- The loop of the standard-library binary search sort.Search, with the error
cell of locatePartition threaded through: each predicate call overwrites the
cell (none on success).  The Go loop runs while i < j with midpoint (i+j)/2;
fuel bounds the iterations and j - i is always sufficient, since each step
strictly shrinks the interval. -/
def searchGo {α : Type} (f : Nat → Option α × Bool) :
    Nat → Nat → Nat → Option α → Nat × Option α
  | 0, i, _, e => (i, e)
  | Nat.succ fuel, i, j, e =>
    if i < j then
      let m := (i + j) / 2
      let p := f m
      if p.2 then searchGo f fuel i m p.1 else searchGo f fuel (m + 1) j p.1
    else (i, e)

/-- The predicate locatePartition passes to sort.Search: evaluate
UpperBounds[i] on the row; on an evaluation error record the error and return
true, otherwise record success (none) and return whether the value is
positive. -/
def locatePred {Row : Type} (exprs : List (Expression Row)) (r : Row) (i : Nat) :
    Option String × Bool :=
  match (exprs.getD i default).evalInt r with
  | Except.error e => (some e, true)
  | Except.ok (ret, _) => (none, decide (ret > 0))

/-- locatePartition: binary-search UpperBounds for the row, then return the
recorded evaluation error if the last evaluation left one, the
no-matching-partition error if the index is out of range (a Nat index cannot
be negative, so only the upper check of the source's idx < 0 || idx >= len
remains), and otherwise the identifier of the definition at the index. -/
def locatePartition {Row : Type} (exprs : List (Expression Row))
    (defs : List PartitionDef) (r : Row) : Except LocateError Int :=
  match searchGo (locatePred exprs r) exprs.length 0 exprs.length none with
  | (_, some e) => Except.error (LocateError.evalError e)
  | (idx, none) =>
    if idx < exprs.length then Except.ok ((defs.getD idx default).ID)
    else Except.error LocateError.noMatchingPartition

/-- Errors surfaced by the facade: a locate error or an error of a delegated
physical-table operation. -/
inductive FacadeErr
  | loc (e : LocateError)
  | phys (e : String)
  deriving DecidableEq, Repr

/-- One delegated call to a physical partition sub-table, recording the target
partition identifier and the arguments passed. -/
inductive PhysCall (Row : Type)
  | add (pid : Int) (r : Row) (skipHandleCheck : Bool)
  | remove (pid : Int) (h : Int) (r : Row)
  | update (pid : Int) (h : Int) (currData newData : Row) (touched : List Bool)

/-- The physical single-partition table collaborator: each operation acts on
that partition's state and either fails (leaving the state to the caller) or
returns the new state.  AddRecord also returns the new record handle. -/
structure PhysOps (Row σ : Type) where
  AddRecord : σ → Row → Bool → Except String (Int × σ)
  RemoveRecord : σ → Int → Row → Except String σ
  UpdateRecord : σ → Int → Row → Row → List Bool → Except String σ

/-- The partitioned table (partitionedTable in the source): the table
metadata of the embedded generic table, the compiled partition expressions and
the registry from partition identifier to physical sub-table, modelled as the
association list built in definition order. -/
structure PartitionedTableModel (Row σ : Type) where
  meta : TableInfo
  partitionExpr : PartitionExpr Row
  partitions : List (Int × σ)

/-- GetPartition: direct registry lookup.  A Go map read of a missing key
yields the nil sub-table pointer, an unusable handle whose first use faults;
that outcome is modelled as none. -/
def PartitionedTableModel.GetPartition {Row σ : Type}
    (t : PartitionedTableModel Row σ) (pid : Int) : Option σ :=
  t.partitions.lookup pid

/-- GetID of the partitioned table: the source unconditionally panics with
this message; the panic is modelled as the error value, and no ok value is
ever produced. -/
def PartitionedTableModel.GetID {Row σ : Type}
    (_t : PartitionedTableModel Row σ) : Except String Int :=
  Except.error "GetID() should never be called on PartitionedTable"

/-- UpdateRecord of the facade.  st maps each partition identifier to the
physical state of that partition; the result carries the state after the
operation, the error if one occurred, and the ordered list of delegated
physical calls.  Translated from source lines 213-247: locate the old and the
new row; if the partitions differ, add to the destination first and remove
from the source only after the add succeeded (a remove failure leaves the row
added, the dirty write the source logs); otherwise delegate one update. -/
def PartitionedTableModel.UpdateRecord {Row σ : Type}
    (t : PartitionedTableModel Row σ) (phys : PhysOps Row σ) (st : Int → σ)
    (h : Int) (currData newData : Row) (touched : List Bool) :
    (Int → σ) × Option FacadeErr × List (PhysCall Row) :=
  match locatePartition t.partitionExpr.UpperBounds t.meta.Partition.Definitions currData with
  | Except.error e => (st, some (FacadeErr.loc e), [])
  | Except.ok from_ =>
    match locatePartition t.partitionExpr.UpperBounds t.meta.Partition.Definitions newData with
    | Except.error e => (st, some (FacadeErr.loc e), [])
    | Except.ok to_ =>
      if from_ ≠ to_ then
        match phys.AddRecord (st to_) newData false with
        | Except.error e =>
            (st, some (FacadeErr.phys e), [PhysCall.add to_ newData false])
        | Except.ok (_, s1) =>
          let st1 := Function.update st to_ s1
          match phys.RemoveRecord (st1 from_) h currData with
          | Except.error e =>
              (st1, some (FacadeErr.phys e),
                [PhysCall.add to_ newData false, PhysCall.remove from_ h currData])
          | Except.ok s2 =>
              (Function.update st1 from_ s2, none,
                [PhysCall.add to_ newData false, PhysCall.remove from_ h currData])
      else
        match phys.UpdateRecord (st to_) h currData newData touched with
        | Except.error e =>
            (st, some (FacadeErr.phys e),
              [PhysCall.update to_ h currData newData touched])
        | Except.ok s2 =>
            (Function.update st to_ s2, none,
              [PhysCall.update to_ h currData newData touched])

/-- The registry-building loop of newPartitionedTable: initialize one physical
sub-table per definition in order, aborting at the first initialization
failure.  initPart stands for the external initTableCommonWithIndices applied
to the parent table's columns and allocator. -/
def buildPartitions {σ : Type} (initPart : PartitionDef → Except String σ) :
    List PartitionDef → Except String (List (Int × σ))
  | [] => Except.ok []
  | d :: rest =>
    match initPart d with
    | Except.error e => Except.error e
    | Except.ok s =>
      match buildPartitions initPart rest with
      | Except.error e => Except.error e
      | Except.ok ps => Except.ok ((d.ID, s) :: ps)

/-- newPartitionedTable: compile the partition expressions, run the parent
index initialization (initIdx stands for the external initTableIndices), then
build the registry; any failure aborts the construction and nothing partial
is returned. -/
def newPartitionedTable {Row σ : Type}
    (parse : String → Except String (Expression Row))
    (initIdx : Except String Unit) (initPart : PartitionDef → Except String σ)
    (ti : TableInfo) : Except String (PartitionedTableModel Row σ) :=
  match generatePartitionExpr parse ti with
  | Except.error e => Except.error e
  | Except.ok pexpr =>
    match initIdx with
    | Except.error e => Except.error e
    | Except.ok _ =>
      match buildPartitions initPart ti.Partition.Definitions with
      | Except.error e => Except.error e
      | Except.ok ps => Except.ok ⟨ti, pexpr, ps⟩

/-! Concrete instances used to evaluate the definitions on sample inputs:
integer rows, a comparison predicate per finite boundary, the always-true
predicate for MAXVALUE, and small physical-table behaviours. -/

/-- An integer row compared against the finite boundary b, as EvalInt of the
compiled predicate row < b would produce. -/
def demoLt (b : Int) : Expression Int :=
  ⟨fun r => Except.ok (if r < b then 1 else 0, false)⟩

/-- The always-true predicate a MAXVALUE boundary compiles to. -/
def demoTrue : Expression Int :=
  ⟨fun _ => Except.ok (1, false)⟩

/-- A predicate whose evaluation always fails. -/
def errExpr : Expression Int :=
  ⟨fun _ => Except.error "boom"⟩

/-- Three partitions bounded by 100, 200 and MAXVALUE. -/
def demoDefs : List PartitionDef :=
  [⟨100, ["100"]⟩, ⟨101, ["200"]⟩, ⟨102, ["MAXVALUE"]⟩]

/-- The locate predicates matching demoDefs. -/
def demoExprs : List (Expression Int) :=
  [demoLt 100, demoLt 200, demoTrue]

/-- Table metadata with key expression x and the demoDefs partitions. -/
def demoTI : TableInfo := ⟨⟨"x", demoDefs⟩⟩

/-- A parser that compiles every text to the always-true predicate. -/
def demoParse : String → Except String (Expression Int) :=
  fun _ => Except.ok demoTrue

/-- A parser that fails on every text. -/
def parseFail : String → Except String (Expression Int) :=
  fun _ => Except.error "bad"

/-- Sub-table initialization that always succeeds with an empty row list. -/
def demoInit : PartitionDef → Except String (List Int) :=
  fun _ => Except.ok []

/-- Sub-table initialization that always fails. -/
def demoInitFail : PartitionDef → Except String (List Int) :=
  fun _ => Except.error "down"

/-- The partition expressions demoParse produces for demoTI. -/
def demoPE : PartitionExpr Int :=
  ⟨[demoTrue, demoTrue, demoTrue], [demoTrue, demoTrue, demoTrue]⟩

/-- The table newPartitionedTable builds from demoParse, demoInit and demoTI. -/
def tC10 : PartitionedTableModel Int (List Int) :=
  ⟨demoTI, demoPE, [(100, []), (101, []), (102, [])]⟩

/-- A facade whose locate predicates are demoExprs over demoDefs. -/
def tFacade : PartitionedTableModel Int (List Int) :=
  ⟨demoTI, ⟨demoExprs, demoExprs⟩, [(100, []), (101, []), (102, [])]⟩

/-- Every partition starts with no rows. -/
def stDemo : Int → List Int := fun _ => []

/-- Physical behaviour whose operations all succeed. -/
def demoPhys : PhysOps Int (List Int) :=
  ⟨fun s r _ => Except.ok (r, r :: s),
   fun s _ r => Except.ok (s.filter (fun x => x ≠ r)),
   fun s _ old new_ _ => Except.ok (new_ :: s.filter (fun x => x ≠ old))⟩

/-- Physical behaviour whose AddRecord always fails. -/
def physFail : PhysOps Int (List Int) :=
  ⟨fun _ _ _ => Except.error "dup",
   fun s _ _ => Except.ok s,
   fun s _ _ _ _ => Except.ok s⟩

/-- A registry with two partitions, for lookup checks. -/
def tDemo : PartitionedTableModel Int (List Int) :=
  ⟨demoTI, demoPE, [(100, [1]), (101, [2])]⟩

/-- A single finite boundary 10 and no MAXVALUE partition. -/
def trgDefs : List PartitionDef := [⟨1, ["10"]⟩]

/-- The locate predicate matching trgDefs. -/
def trgExprs : List (Expression Int) := [demoLt 10]

/-- Two partitions whose second locate predicate fails to evaluate. -/
def maskDefs : List PartitionDef := [⟨100, ["5"]⟩, ⟨101, ["MAXVALUE"]⟩]

/-- Locate predicates for maskDefs: the first always true, the second always
an evaluation error. -/
def maskExprs : List (Expression Int) := [demoTrue, errExpr]

/-! Helper lemmas shared by the claim theorems. -/

/-- Binary-search correctness of the sort.Search loop: when every predicate
call in range succeeds (error cell none) and the boolean results are monotone,
the loop started on an interval enclosing the least true index returns that
index with a clean error cell. -/
theorem searchGo_least {α : Type} (f : Nat → Option α × Bool) (g : Nat → Bool)
    (n i₀ : Nat) (hf : ∀ k, k < n → f k = (none, g k))
    (hmono : ∀ a, a < n → ∀ b, b < n → a ≤ b → g a = true → g b = true)
    (hi₀ : i₀ < n) (hg : g i₀ = true) (hleast : ∀ k, k < i₀ → g k = false) :
    ∀ fuel i j, j - i ≤ fuel → i ≤ i₀ → i₀ ≤ j → j ≤ n →
      searchGo f fuel i j none = (i₀, none) := by
  intro fuel
  induction fuel with
  | zero =>
    intro i j h1 h2 h3 h4
    have hij : i = i₀ := by omega
    subst hij
    simp [searchGo]
  | succ fuel ih =>
    intro i j h1 h2 h3 h4
    by_cases hlt : i < j
    · have hm1 : i ≤ (i + j) / 2 := by
        rw [Nat.le_div_iff_mul_le (by norm_num)]
        omega
      have hm2 : (i + j) / 2 < j := by
        rw [Nat.div_lt_iff_lt_mul (by norm_num)]
        omega
      have hmn : (i + j) / 2 < n := lt_of_lt_of_le hm2 h4
      have hstep : searchGo f (fuel + 1) i j none =
          if g ((i + j) / 2) = true then searchGo f fuel i ((i + j) / 2) none
          else searchGo f fuel ((i + j) / 2 + 1) j none := by
        simp only [searchGo, if_pos hlt, hf _ hmn]
      rw [hstep]
      by_cases hgm : g ((i + j) / 2) = true
      · rw [if_pos hgm]
        have hi₀m : i₀ ≤ (i + j) / 2 := by
          by_contra hcon
          have hfalse := hleast ((i + j) / 2) (by omega)
          rw [hfalse] at hgm
          exact Bool.false_ne_true hgm
        have hfa : (i + j) / 2 - i ≤ fuel := by omega
        exact ih i ((i + j) / 2) hfa h2 hi₀m (le_of_lt hmn)
      · rw [if_neg hgm]
        have hi₀m : (i + j) / 2 + 1 ≤ i₀ := by
          by_contra hcon
          have hle : i₀ ≤ (i + j) / 2 := by omega
          exact hgm (hmono i₀ hi₀ ((i + j) / 2) hmn hle hg)
        have hfb : j - ((i + j) / 2 + 1) ≤ fuel := by omega
        exact ih ((i + j) / 2 + 1) j hfb hi₀m h3 h4
    · have hij : i = i₀ := by omega
      subst hij
      simp [searchGo, hlt]

/-- A key absent from the association list looks up to none. -/
theorem lookup_eq_none_of_not_mem {σ : Type} (l : List (Int × σ)) (k : Int)
    (h : k ∉ l.map Prod.fst) : l.lookup k = none := by
  induction l with
  | nil => rfl
  | cons p rest ih =>
    obtain ⟨a, b⟩ := p
    simp only [List.map_cons, List.mem_cons] at h
    push_neg at h
    simp only [List.lookup]
    cases hk : k == a with
    | true =>
      have hka : k = a := by simpa using hk
      exact absurd hka h.1
    | false => exact ih h.2

/-- A successful lookup returns an entry of the association list. -/
theorem mem_of_lookup_eq_some {σ : Type} (l : List (Int × σ)) (k : Int) (s : σ)
    (h : l.lookup k = some s) : (k, s) ∈ l := by
  induction l with
  | nil => simp [List.lookup] at h
  | cons p rest ih =>
    obtain ⟨a, b⟩ := p
    simp only [List.lookup] at h
    cases hk : k == a with
    | true =>
      rw [hk] at h
      have hs : b = s := Option.some.inj h
      have hka : k = a := by simpa using hk
      subst hs
      subst hka
      exact List.mem_cons_self _ _
    | false =>
      rw [hk] at h
      exact List.mem_cons_of_mem _ (ih h)

/-- A key present in the association list looks up to some value. -/
theorem lookup_isSome_of_mem_keys {σ : Type} (l : List (Int × σ)) (k : Int)
    (h : k ∈ l.map Prod.fst) : ∃ s, l.lookup k = some s := by
  induction l with
  | nil => simp at h
  | cons p rest ih =>
    obtain ⟨a, b⟩ := p
    simp only [List.lookup]
    cases hk : k == a with
    | true => exact ⟨b, rfl⟩
    | false =>
      apply ih
      simp only [List.map_cons, List.mem_cons] at h
      rcases h with h | h
      · exact absurd (show k = a by simpa using h) (by simpa using hk)
      · exact h

/-- Shape of a successful genLoop run: both result lists are as long as the
definition list, every locate entry is the parse of the upper-bound text of
its definition, and every prune entry is the parse of the range text built
from its definition and its predecessor (prev for the first one). -/
theorem genLoop_spec {Row : Type} (parse : String → Except String (Expression Row))
    (ex : String) :
    ∀ (l : List PartitionDef) (prev : Option PartitionDef)
      (ubs rgs : List (Expression Row)),
      genLoop parse ex prev l = Except.ok (ubs, rgs) →
      ubs.length = l.length ∧ rgs.length = l.length ∧
      ∀ i, i < l.length →
        parse (upperBoundString ex (l.getD i default)) =
          Except.ok (ubs.getD i default) ∧
        parse (rangeString ex
            (if i = 0 then prev else some (l.getD (i - 1) default))
            (l.getD i default)) =
          Except.ok (rgs.getD i default) := by
  intro l
  induction l with
  | nil =>
    intro prev ubs rgs h
    simp only [genLoop] at h
    obtain ⟨h1, h2⟩ := Prod.mk.injEq .. ▸ Except.ok.inj h
    subst h1
    subst h2
    refine ⟨rfl, rfl, ?_⟩
    intro i hi
    simp at hi
  | cons d rest ih =>
    intro prev ubs rgs h
    simp only [genLoop] at h
    cases hub : parse (upperBoundString ex d) with
    | error e => rw [hub] at h; cases h
    | ok ub =>
      rw [hub] at h
      cases hrg : parse (rangeString ex prev d) with
      | error e => rw [hrg] at h; cases h
      | ok rg =>
        rw [hrg] at h
        cases hrest : genLoop parse ex (some d) rest with
        | error e => rw [hrest] at h; cases h
        | ok pr =>
          obtain ⟨ubs', rgs'⟩ := pr
          rw [hrest] at h
          obtain ⟨h1, h2⟩ := Prod.mk.injEq .. ▸ Except.ok.inj h
          subst h1
          subst h2
          obtain ⟨hl1, hl2, hidx⟩ := ih (some d) ubs' rgs' hrest
          refine ⟨by simpa using hl1, by simpa using hl2, ?_⟩
          intro i hi
          cases i with
          | zero => exact ⟨by simpa using hub, by simpa using hrg⟩
          | succ i' =>
            have hi' : i' < rest.length := by simpa using hi
            have hmain := hidx i' hi'
            cases i' with
            | zero => simpa using hmain
            | succ i'' => simpa using hmain

/-- A definition whose sub-table initialization fails makes the registry
build fail. -/
theorem buildPartitions_error_of_mem {σ : Type}
    (initPart : PartitionDef → Except String σ) :
    ∀ (l : List PartitionDef) (d : PartitionDef), d ∈ l →
      (∃ e, initPart d = Except.error e) →
      ∃ e, buildPartitions initPart l = Except.error e := by
  intro l
  induction l with
  | nil => intro d hd; cases hd
  | cons a rest ih =>
    intro d hd he
    simp only [buildPartitions]
    rcases List.mem_cons.mp hd with hda | hdr
    · subst hda
      obtain ⟨e, hie⟩ := he
      exact ⟨e, by rw [hie]⟩
    · cases hia : initPart a with
      | error e => exact ⟨e, rfl⟩
      | ok s =>
        obtain ⟨e, hbe⟩ := ih d hdr he
        exact ⟨e, by rw [hbe]⟩

/-- A successful registry build keys one entry per definition, in order, by
the definition identifiers. -/
theorem buildPartitions_ok_keys {σ : Type}
    (initPart : PartitionDef → Except String σ) :
    ∀ (l : List PartitionDef) (ps : List (Int × σ)),
      buildPartitions initPart l = Except.ok ps →
      ps.map Prod.fst = l.map PartitionDef.ID := by
  intro l
  induction l with
  | nil =>
    intro ps h
    simp only [buildPartitions] at h
    have := Except.ok.inj h
    subst this
    rfl
  | cons a rest ih =>
    intro ps h
    simp only [buildPartitions] at h
    cases hia : initPart a with
    | error e => rw [hia] at h; cases h
    | ok s =>
      rw [hia] at h
      cases hrest : buildPartitions initPart rest with
      | error e => rw [hrest] at h; cases h
      | ok ps' =>
        rw [hrest] at h
        have := Except.ok.inj h
        subst this
        simpa using ih ps' hrest

/-- An in-range getD returns an element of the list. -/
theorem getD_mem_of_lt {α : Type} [Inhabited α] (l : List α) (i : Nat)
    (h : i < l.length) : l.getD i default ∈ l := by
  induction l generalizing i with
  | nil => simp at h
  | cons a rest ih =>
    cases i with
    | zero => simp [List.getD]
    | succ i' =>
      have hi' : i' < rest.length := by simpa using h
      have hstep : (a :: rest).getD (i' + 1) default = rest.getD i' default := rfl
      rw [hstep]
      exact List.mem_cons_of_mem _ (ih i' hi')

/-- A successful locatePartition run names an index inside the UpperBounds
range, whose definition identifier is the result. -/
theorem locatePartition_ok_elim {Row : Type} (exprs : List (Expression Row))
    (defs : List PartitionDef) (r : Row) (pid : Int)
    (h : locatePartition exprs defs r = Except.ok pid) :
    ∃ idx, idx < exprs.length ∧ pid = (defs.getD idx default).ID := by
  unfold locatePartition at h
  rcases hsg : searchGo (locatePred exprs r) exprs.length 0 exprs.length none
    with ⟨idx, e⟩
  rw [hsg] at h
  cases e with
  | some e0 => cases h
  | none =>
    have h' : (if idx < exprs.length then Except.ok ((defs.getD idx default).ID)
        else Except.error LocateError.noMatchingPartition) = Except.ok pid := h
    by_cases hlt : idx < exprs.length
    · rw [if_pos hlt] at h'
      exact ⟨idx, hlt, (Except.ok.inj h').symm⟩
    · rw [if_neg hlt] at h'
      cases h'

/-! Claim theorems. -/

/-- C1: for a table whose UpperBounds list is monotone under the locate
search (the search boolean true at an index stays true at every later index)
and whose evaluations all succeed on the row, locatePartition returns the
identifier of the definition at the smallest index whose predicate evaluates
true — the unique index that is true with every earlier index false. -/
theorem locatePartition_returns_least_true {Row : Type}
    (exprs : List (Expression Row)) (defs : List PartitionDef) (r : Row) (i₀ : Nat)
    (hok : ∀ k, k < exprs.length → (locatePred exprs r k).1 = none)
    (hmono : ∀ a, a < exprs.length → ∀ b, b < exprs.length → a ≤ b →
        (locatePred exprs r a).2 = true → (locatePred exprs r b).2 = true)
    (hi₀ : i₀ < exprs.length)
    (hg : (locatePred exprs r i₀).2 = true)
    (hleast : ∀ k, k < i₀ → (locatePred exprs r k).2 = false) :
    locatePartition exprs defs r = Except.ok ((defs.getD i₀ default).ID) := by
  have hf : ∀ k, k < exprs.length →
      locatePred exprs r k = (none, (locatePred exprs r k).2) := by
    intro k hk
    exact Prod.ext (hok k hk) rfl
  have hs := searchGo_least (locatePred exprs r)
      (fun k => (locatePred exprs r k).2) exprs.length i₀ hf hmono hi₀ hg hleast
      exprs.length 0 exprs.length (by omega) (by omega) (le_of_lt hi₀) (le_refl _)
  unfold locatePartition
  rw [hs]
  show (if i₀ < exprs.length then Except.ok ((defs.getD i₀ default).ID)
      else Except.error LocateError.noMatchingPartition) =
    Except.ok ((defs.getD i₀ default).ID)
  rw [if_pos hi₀]

/-- Witness for C1: on the three-partition table bounded by 100, 200 and
MAXVALUE, the row with key 150 locates to the middle partition, id 101. -/
theorem locatePartition_least_witness :
    locatePartition demoExprs demoDefs (150 : Int) = Except.ok 101 :=
  locatePartition_returns_least_true demoExprs demoDefs 150 1 (by decide)
    (by decide) (by decide) (by decide) (by decide)

/-- C3 (the code contradicts the claim): with the first locate predicate
always true and the second always failing to evaluate, the search evaluates
the failing predicate, continues, lets the later successful evaluation
overwrite the recorded error, and returns partition 100 with no error; the
claimed immediate abort with the error propagated does not happen. -/
theorem locatePartition_masks_eval_error :
    errExpr.evalInt 42 = Except.error "boom" ∧
      locatePartition maskExprs maskDefs (42 : Int) = Except.ok 100 :=
  ⟨rfl, rfl⟩

/-- C4: when the binary search ends with a clean error cell at an index
outside the partition range, locatePartition returns the distinguished
no-matching-partition error and no identifier. -/
theorem locatePartition_out_of_range {Row : Type} (exprs : List (Expression Row))
    (defs : List PartitionDef) (r : Row) (idx : Nat)
    (hsearch : searchGo (locatePred exprs r) exprs.length 0 exprs.length none
      = (idx, none))
    (hidx : exprs.length ≤ idx) :
    locatePartition exprs defs r = Except.error LocateError.noMatchingPartition := by
  unfold locatePartition
  rw [hsearch]
  show (if idx < exprs.length then Except.ok ((defs.getD idx default).ID)
      else Except.error LocateError.noMatchingPartition) =
    Except.error LocateError.noMatchingPartition
  rw [if_neg (by omega)]

/-- Witness for C4: with the single finite boundary 10 and no MAXVALUE
partition, locating key 50 returns the no-matching-partition error. -/
theorem locatePartition_out_of_range_witness :
    locatePartition trgExprs trgDefs (50 : Int)
      = Except.error LocateError.noMatchingPartition :=
  locatePartition_out_of_range trgExprs trgDefs 50 1 rfl (by decide)

/-- C7: GetID of a partitioned table never produces an identifier: for every
instance it is the fail-fast panic outcome, modelled as the fixed error
value. -/
theorem partitionedTable_getID_never_value {Row σ : Type}
    (t : PartitionedTableModel Row σ) :
    t.GetID = Except.error "GetID() should never be called on PartitionedTable" :=
  rfl

/-- C2: on a cross-partition update (both locates succeeding with different
partitions), the facade delegates the add to the destination first; if that
add fails the call returns the error, the physical state is unchanged and the
only delegated call is the failed add (nothing touches the source partition);
the remove on the source is delegated exactly when the add succeeded, after
it. -/
theorem updateRecord_cross_partition {Row σ : Type}
    (t : PartitionedTableModel Row σ) (phys : PhysOps Row σ) (st : Int → σ)
    (h : Int) (currData newData : Row) (touched : List Bool) (from_ to_ : Int)
    (h1 : locatePartition t.partitionExpr.UpperBounds
      t.meta.Partition.Definitions currData = Except.ok from_)
    (h2 : locatePartition t.partitionExpr.UpperBounds
      t.meta.Partition.Definitions newData = Except.ok to_)
    (hne : from_ ≠ to_) :
    (∀ e, phys.AddRecord (st to_) newData false = Except.error e →
        t.UpdateRecord phys st h currData newData touched
          = (st, some (FacadeErr.phys e), [PhysCall.add to_ newData false])) ∧
    (∀ rid s1, phys.AddRecord (st to_) newData false = Except.ok (rid, s1) →
        (t.UpdateRecord phys st h currData newData touched).2.2
          = [PhysCall.add to_ newData false, PhysCall.remove from_ h currData]) := by
  constructor
  · intro e he
    simp [PartitionedTableModel.UpdateRecord, h1, h2, hne, he]
  · intro rid s1 hadd
    cases hrm : phys.RemoveRecord (st from_) h currData with
    | error e =>
      simp [PartitionedTableModel.UpdateRecord, h1, h2, hne, hadd, hrm]
    | ok s2 =>
      simp [PartitionedTableModel.UpdateRecord, h1, h2, hne, hadd, hrm]

/-- Witness for C2: moving a row from partition 101 to 102 with a failing
destination add returns the add error, leaves every partition state
untouched and delegates only the one failed add. -/
theorem updateRecord_cross_witness :
    tFacade.UpdateRecord physFail stDemo 7 150 250 []
      = (stDemo, some (FacadeErr.phys "dup"), [PhysCall.add 102 250 false]) :=
  (updateRecord_cross_partition tFacade physFail stDemo 7 150 250 [] 101 102
    rfl rfl (by decide)).1 "dup" rfl

/-- C6: when both rows locate to one partition, the facade issues exactly one
delegated call, the update on that partition; every other partition keeps its
state, the located partition ends in the state of the direct physical update,
and the result error mirrors the delegated outcome. -/
theorem updateRecord_same_partition {Row σ : Type}
    (t : PartitionedTableModel Row σ) (phys : PhysOps Row σ) (st : Int → σ)
    (h : Int) (currData newData : Row) (touched : List Bool) (p : Int)
    (h1 : locatePartition t.partitionExpr.UpperBounds
      t.meta.Partition.Definitions currData = Except.ok p)
    (h2 : locatePartition t.partitionExpr.UpperBounds
      t.meta.Partition.Definitions newData = Except.ok p) :
    (t.UpdateRecord phys st h currData newData touched).2.2
        = [PhysCall.update p h currData newData touched] ∧
    (∀ q, q ≠ p → (t.UpdateRecord phys st h currData newData touched).1 q = st q) ∧
    (t.UpdateRecord phys st h currData newData touched).1 p =
      (match phys.UpdateRecord (st p) h currData newData touched with
       | Except.ok s => s
       | Except.error _ => st p) ∧
    (t.UpdateRecord phys st h currData newData touched).2.1 =
      (match phys.UpdateRecord (st p) h currData newData touched with
       | Except.ok _ => none
       | Except.error e => some (FacadeErr.phys e)) := by
  cases hup : phys.UpdateRecord (st p) h currData newData touched with
  | error e =>
    refine ⟨?_, ?_, ?_, ?_⟩
    · simp [PartitionedTableModel.UpdateRecord, h1, h2, hup]
    · intro q hq
      simp [PartitionedTableModel.UpdateRecord, h1, h2, hup]
    · simp [PartitionedTableModel.UpdateRecord, h1, h2, hup]
    · simp [PartitionedTableModel.UpdateRecord, h1, h2, hup]
  | ok s =>
    refine ⟨?_, ?_, ?_, ?_⟩
    · simp [PartitionedTableModel.UpdateRecord, h1, h2, hup]
    · intro q hq
      simp [PartitionedTableModel.UpdateRecord, h1, h2, hup,
        Function.update_noteq hq]
    · simp [PartitionedTableModel.UpdateRecord, h1, h2, hup]
    · simp [PartitionedTableModel.UpdateRecord, h1, h2, hup]

/-- Witness for C6: updating key 150 to 160 stays in partition 101 and
delegates exactly the one update call to it. -/
theorem updateRecord_same_witness :
    (tFacade.UpdateRecord demoPhys stDemo 7 150 160 []).2.2
      = [PhysCall.update 101 7 150 160 []] :=
  (updateRecord_same_partition tFacade demoPhys stDemo 7 150 160 [] 101
    rfl rfl).1

/-- C5: on a successful compilation, UpperBounds and Ranges each carry one
predicate per definition; UpperBounds at index i is the compilation of the
text true for an unbounded (MAXVALUE) boundary and of
((key expression) < (boundary literal i)) otherwise, and Ranges at index i is
the compilation of that same text for i = 0 and of the text with
 and ((key expression) >= (boundary literal i-1)) appended for later
indices. -/
theorem generatePartitionExpr_shape {Row : Type}
    (parse : String → Except String (Expression Row)) (ti : TableInfo)
    (pe : PartitionExpr Row)
    (h : generatePartitionExpr parse ti = Except.ok pe) :
    pe.UpperBounds.length = ti.Partition.Definitions.length ∧
    pe.Ranges.length = ti.Partition.Definitions.length ∧
    ∀ i, i < ti.Partition.Definitions.length →
      parse (upperBoundString ti.Partition.Expr
          (ti.Partition.Definitions.getD i default)) =
        Except.ok (pe.UpperBounds.getD i default) ∧
      parse (rangeString ti.Partition.Expr
          (if i = 0 then none
            else some (ti.Partition.Definitions.getD (i - 1) default))
          (ti.Partition.Definitions.getD i default)) =
        Except.ok (pe.Ranges.getD i default) := by
  unfold generatePartitionExpr at h
  cases hgl : genLoop parse ti.Partition.Expr none ti.Partition.Definitions with
  | error e => rw [hgl] at h; cases h
  | ok pr =>
    obtain ⟨ubs, rgs⟩ := pr
    rw [hgl] at h
    have hpe := Except.ok.inj h
    subst hpe
    obtain ⟨hl1, hl2, hidx⟩ := genLoop_spec parse ti.Partition.Expr
      ti.Partition.Definitions none ubs rgs hgl
    exact ⟨hl1, hl2, hidx⟩

/-- Witness for C5: demoParse compiles demoTI into demoPE, with one entry per
definition and the first UpperBounds entry the compilation of the first
boundary text. -/
theorem generatePartitionExpr_shape_witness :
    demoPE.UpperBounds.length = demoTI.Partition.Definitions.length ∧
      demoParse (upperBoundString demoTI.Partition.Expr
          (demoTI.Partition.Definitions.getD 0 default))
        = Except.ok (demoPE.UpperBounds.getD 0 default) :=
  ⟨(generatePartitionExpr_shape demoParse demoTI demoPE rfl).1,
    ((generatePartitionExpr_shape demoParse demoTI demoPE rfl).2.2 0
      (by decide)).1⟩

/-- C8: construction is all-or-nothing — a boundary compilation error aborts
newPartitionedTable with that error, a failing sub-table initialization of
any definition aborts it with an error, and a successful construction keys
exactly one sub-table per definition, by the definition identifiers. -/
theorem newPartitionedTable_all_or_nothing {Row σ : Type}
    (parse : String → Except String (Expression Row))
    (initIdx : Except String Unit) (initPart : PartitionDef → Except String σ)
    (ti : TableInfo) :
    (∀ e, generatePartitionExpr parse ti = Except.error e →
        newPartitionedTable parse initIdx initPart ti = Except.error e) ∧
    ((∃ d ∈ ti.Partition.Definitions, ∃ e, initPart d = Except.error e) →
        ∃ e, newPartitionedTable parse initIdx initPart ti = Except.error e) ∧
    (∀ t, newPartitionedTable parse initIdx initPart ti = Except.ok t →
        t.partitions.map Prod.fst = ti.Partition.Definitions.map PartitionDef.ID) := by
  refine ⟨?_, ?_, ?_⟩
  · intro e he
    unfold newPartitionedTable
    rw [he]
  · intro hex
    obtain ⟨d, hd, he⟩ := hex
    unfold newPartitionedTable
    cases hg : generatePartitionExpr parse ti with
    | error e => exact ⟨e, rfl⟩
    | ok pexpr =>
      cases hix : initIdx with
      | error e => exact ⟨e, rfl⟩
      | ok u =>
        obtain ⟨e, hbe⟩ := buildPartitions_error_of_mem initPart
          ti.Partition.Definitions d hd he
        rw [hbe]
        exact ⟨e, rfl⟩
  · intro t ht
    unfold newPartitionedTable at ht
    cases hg : generatePartitionExpr parse ti with
    | error e => rw [hg] at ht; cases ht
    | ok pexpr =>
      rw [hg] at ht
      cases hix : initIdx with
      | error e => rw [hix] at ht; cases ht
      | ok u =>
        rw [hix] at ht
        cases hbp : buildPartitions initPart ti.Partition.Definitions with
        | error e => rw [hbp] at ht; cases ht
        | ok ps =>
          rw [hbp] at ht
          have hte := Except.ok.inj ht
          subst hte
          exact buildPartitions_ok_keys initPart ti.Partition.Definitions ps hbp

/-- Witness for C8: a parser failing on the first boundary text aborts the
construction with that parse error. -/
theorem newPartitionedTable_witness :
    newPartitionedTable parseFail (Except.ok ()) demoInit demoTI
      = Except.error "bad" :=
  (newPartitionedTable_all_or_nothing parseFail (Except.ok ()) demoInit demoTI).1
    "bad" rfl

/-- C9: GetPartition on an identifier absent from the registry yields the
unusable nil handle (modelled none), never a usable sub-table; a successful
lookup returns an entry of the registry, and every registered identifier
yields its sub-table handle. -/
theorem getPartition_registry_lookup {Row σ : Type}
    (t : PartitionedTableModel Row σ) (pid : Int) :
    (pid ∉ t.partitions.map Prod.fst → t.GetPartition pid = none) ∧
    (∀ s, t.GetPartition pid = some s → (pid, s) ∈ t.partitions) ∧
    (pid ∈ t.partitions.map Prod.fst → ∃ s, t.GetPartition pid = some s) :=
  ⟨fun h => lookup_eq_none_of_not_mem t.partitions pid h,
    fun s h => mem_of_lookup_eq_some t.partitions pid s h,
    fun h => lookup_isSome_of_mem_keys t.partitions pid h⟩

/-- Witness for C9: the two-partition registry of tDemo has no partition 5,
and GetPartition 5 is the nil (none) handle. -/
theorem getPartition_registry_witness :
    tDemo.GetPartition 5 = none :=
  (getPartition_registry_lookup tDemo 5).1 (by decide)

/-- C10: on a table built by newPartitionedTable, every identifier
locatePartition returns without error is the identifier of one of the
partition definitions, and GetPartition on it yields a constructed sub-table
handle — the facade operations never delegate to a missing partition after a
successful locate. -/
theorem locate_implies_registered {Row σ : Type}
    (parse : String → Except String (Expression Row))
    (initIdx : Except String Unit) (initPart : PartitionDef → Except String σ)
    (ti : TableInfo) (t : PartitionedTableModel Row σ) (r : Row) (pid : Int)
    (hbuild : newPartitionedTable parse initIdx initPart ti = Except.ok t)
    (hloc : locatePartition t.partitionExpr.UpperBounds
      ti.Partition.Definitions r = Except.ok pid) :
    pid ∈ ti.Partition.Definitions.map PartitionDef.ID ∧
      ∃ s, t.GetPartition pid = some s := by
  unfold newPartitionedTable at hbuild
  cases hg : generatePartitionExpr parse ti with
  | error e => rw [hg] at hbuild; cases hbuild
  | ok pexpr =>
    rw [hg] at hbuild
    cases hix : initIdx with
    | error e => rw [hix] at hbuild; cases hbuild
    | ok u =>
      rw [hix] at hbuild
      cases hbp : buildPartitions initPart ti.Partition.Definitions with
      | error e => rw [hbp] at hbuild; cases hbuild
      | ok ps =>
        rw [hbp] at hbuild
        have hte := Except.ok.inj hbuild
        subst hte
        unfold generatePartitionExpr at hg
        cases hgl : genLoop parse ti.Partition.Expr none
            ti.Partition.Definitions with
        | error e => rw [hgl] at hg; cases hg
        | ok pr =>
          obtain ⟨ubs, rgs⟩ := pr
          rw [hgl] at hg
          have hpe := Except.ok.inj hg
          subst hpe
          obtain ⟨hl1, hl2, hidx⟩ := genLoop_spec parse ti.Partition.Expr
            ti.Partition.Definitions none ubs rgs hgl
          obtain ⟨idx, hlt, hpid⟩ := locatePartition_ok_elim ubs
            ti.Partition.Definitions r pid hloc
          have hdl : idx < ti.Partition.Definitions.length := by omega
          have hmem : pid ∈ ti.Partition.Definitions.map PartitionDef.ID := by
            rw [hpid]
            exact List.mem_map_of_mem PartitionDef.ID
              (getD_mem_of_lt ti.Partition.Definitions idx hdl)
          refine ⟨hmem, ?_⟩
          show ∃ s, ps.lookup pid = some s
          apply lookup_isSome_of_mem_keys
          rw [buildPartitions_ok_keys initPart ti.Partition.Definitions ps hbp]
          exact hmem

/-- Witness for C10: locating key 42 on the constructed demo table returns
identifier 100, which is a definition identifier and has a registered
sub-table. -/
theorem locate_implies_registered_witness :
    (100 : Int) ∈ demoTI.Partition.Definitions.map PartitionDef.ID ∧
      ∃ s, tC10.GetPartition 100 = some s :=
  locate_implies_registered demoParse (Except.ok ()) demoInit demoTI tC10
    (42 : Int) 100 rfl rfl

end PartitionGo
